import Mathlib

/-!
Verification of the languagetool-wrapper match data model and compact codec.

The definitions below are a shallow embedding of `src/languagetool/data.py`
(the `LightweightMatch` codec) and of the response-deserialization loop of
`LanguageToolChecker.check_text` in `src/languagetool/languagetool.py`.
Python strings are modelled as `List Char`, Python `int` as `Int`,
and raising `ValueError` / `KeyError` as returning `Except LTError`.
-/

deriving instance DecidableEq for Except

namespace LanguageTool

/-- Errors of the core, per the error taxonomy: a decode failure carries the
offending input string; a missing response key carries the key name.
`MalformedAnnotationError` embeds the `ValueError` raised by `from_short_string`,
`MissingField` the `KeyError` raised by a dictionary lookup in `check_text`. -/
inductive LTError where
  | MalformedAnnotationError (input : List Char)
  | MissingField (key : List Char)
  | WrongType
  deriving DecidableEq, Repr

/-- `LT_REPLACEMENT_SEPARATOR = "@|@"` from `data.py`. -/
def LT_REPLACEMENT_SEPARATOR : List Char := "@|@".data

/-- The lightweight variant of a match, from `data.py`:
`rule : str`, `start : int`, `end : int`, `replacements : tuple[str, ...]`. -/
structure LightweightMatch where
  rule : List Char
  start : Int
  «end» : Int
  replacements : List (List Char)
  deriving DecidableEq, Repr

/-- Leftmost occurrence of the substring `sep` in `l`, returned as the pair
(text before the occurrence, text after the occurrence); `none` when `sep`
does not occur in `l`.  This is the search step of Python's `str.split`. -/
def findSplit (sep : List Char) : List Char → Option (List Char × List Char)
  | [] => none
  | c :: rest =>
    if sep.isPrefixOf (c :: rest) then some ([], (c :: rest).drop sep.length)
    else
      match findSplit sep rest with
      | none => none
      | some (pre, post) => some (c :: pre, post)

/-- Fuel-driven worker for `splitOnSep`; the fuel bounds the number of
separator occurrences that can still be consumed. -/
def splitFuel (sep : List Char) : Nat → List Char → List (List Char)
  | 0, l => [l]
  | fuel + 1, l =>
    match findSplit sep l with
    | none => [l]
    | some (pre, post) => pre :: splitFuel sep fuel post

/-- Python's `l.split(sep)` for a non-empty separator `sep`: split `l` at each
non-overlapping leftmost occurrence of `sep`; `"".split(sep) == [""]`.
The length of `l` bounds the number of occurrences, so it serves as fuel. -/
def splitOnSep (sep l : List Char) : List (List Char) :=
  if 0 < sep.length then splitFuel sep l.length l else [l]

/-- Python's `sep.join(parts)`. -/
def joinSep (sep : List Char) : List (List Char) → List Char
  | [] => []
  | [r] => r
  | r :: r2 :: rest => r ++ sep ++ joinSep sep (r2 :: rest)

/-- Decimal digit character for `d < 10`. -/
def digitChar (d : Nat) : Char := Char.ofNat (48 + d)

/-- Numeric value of a decimal digit character. -/
def digitVal (c : Char) : Nat := c.toNat - 48

/-- Fuel-driven worker for `natRepr`. -/
def natReprFuel : Nat → Nat → List Char
  | 0, _ => []
  | fuel + 1, n =>
    if n < 10 then [digitChar n]
    else natReprFuel fuel (n / 10) ++ [digitChar (n % 10)]

/-- Decimal representation of a natural number, as Python's `str` renders it. -/
def natRepr (n : Nat) : List Char := natReprFuel (n + 1) n

/-- Python's `str(i)` for an `int` value `i`. -/
def intRepr (i : Int) : List Char :=
  if i < 0 then '-' :: natRepr i.natAbs else natRepr i.toNat

/-- Python's `int(s)` on a string of decimal digits. -/
def parseNat (ds : List Char) : Nat :=
  ds.foldl (fun acc c => acc * 10 + digitVal c) 0

/-- The anchored regular expression `LT_MATCH_REGEX` from `data.py`:
`^\((?P<rule>[^,]+),(?P<start>[0-9]+),(?P<end>[0-9]+)\)` followed by
`\x7b(?P<replacements>[^\x7d]*)\x7d$` (braces written here as escapes).
Each character class is matched greedily; since no class can cross its
delimiter the regex backtracking is equivalent to this direct scan.
Python's `$` also matches just before a single trailing newline.
Returns the captured groups (rule, start, end, replacements). -/
def matchLTRegex (s : List Char) : Option (List Char × List Char × List Char × List Char) :=
  match s with
  | '(' :: r0 =>
    let rule := r0.takeWhile (fun c => c != ',')
    match r0.dropWhile (fun c => c != ',') with
    | ',' :: r2 =>
      if rule.isEmpty then none
      else
        let ds := r2.takeWhile Char.isDigit
        match r2.dropWhile Char.isDigit with
        | ',' :: r4 =>
          if ds.isEmpty then none
          else
            let de := r4.takeWhile Char.isDigit
            match r4.dropWhile Char.isDigit with
            | ')' :: '\x7b' :: r6 =>
              if de.isEmpty then none
              else
                let reps := r6.takeWhile (fun c => c != '\x7d')
                match r6.dropWhile (fun c => c != '\x7d') with
                | '\x7d' :: r8 =>
                  if r8 = [] ∨ r8 = ['\n'] then some (rule, ds, de, reps) else none
                | _ => none
            | _ => none
        | _ => none
    | _ => none
  | _ => none

/-- `LightweightMatch.from_short_string` from `data.py`: match the input
against `LT_MATCH_REGEX`; on failure raise (here: return) the malformed-
annotation error carrying the input; on success split the replacements
group on the separator and build the `LightweightMatch` from the groups. -/
def from_short_string (serialization : List Char)
    (replacement_separator : List Char := LT_REPLACEMENT_SEPARATOR) :
    Except LTError LightweightMatch :=
  match matchLTRegex serialization with
  | none => .error (.MalformedAnnotationError serialization)
  | some (rule, ds, de, reps) =>
    .ok { rule := rule
          start := Int.ofNat (parseNat ds)
          «end» := Int.ofNat (parseNat de)
          replacements := splitOnSep replacement_separator reps }

/-- `LightweightMatch.to_short_string` from `data.py`: the literal
concatenation `"(" + rule + "," + str(start) + "," + str(end) + "){"
+ separator-join of replacements + "}"`. -/
def to_short_string (m : LightweightMatch) : List Char :=
  '(' :: m.rule ++ ',' :: intRepr m.start ++ ',' :: intRepr m.«end»
    ++ ')' :: '\x7b' :: joinSep LT_REPLACEMENT_SEPARATOR m.replacements ++ ['\x7d']

/-- The language accepted by `LT_MATCH_REGEX`, stated declaratively: the
input decomposes as `"(" rule "," start "," end "){" replacements "}"`
with an optional single trailing newline (Python's `$`), a non-empty
comma-free rule, non-empty all-digit start and end groups, and a
brace-free replacements group.  `matchLTRegex_sound` and
`matchLTRegex_complete` prove this equivalent to the scan above. -/
abbrev CodeGrammar (s rule ds de seg : List Char) : Prop :=
  (s = '(' :: (rule ++ ',' :: (ds ++ ',' :: (de ++ ')' :: '\x7b' :: (seg ++ ['\x7d'])))) ∨
   s = '(' :: (rule ++ ',' :: (ds ++ ',' :: (de ++ ')' :: '\x7b' :: (seg ++ ['\x7d', '\n']))))) ∧
  rule ≠ [] ∧ (∀ c ∈ rule, c ≠ ',') ∧
  ds ≠ [] ∧ (∀ c ∈ ds, c.isDigit = true) ∧
  de ≠ [] ∧ (∀ c ∈ de, c.isDigit = true) ∧
  (∀ c ∈ seg, c ≠ '\x7d')

/-- The decode grammar exactly as the specification's claim words it:
`^\(([^,]+),(\d+),(\d+)\)` followed by `\x7b(.*)\x7d$` with braces escaped,
anchored at both ends, where the replacements segment is everything between
the final brace pair.  The dot of `(.*)` matches any character except a
newline, so the segment may contain further braces but no newline. -/
abbrev ClaimGrammar (s rule ds de seg : List Char) : Prop :=
  s = '(' :: (rule ++ ',' :: (ds ++ ',' :: (de ++ ')' :: '\x7b' :: (seg ++ ['\x7d'])))) ∧
  rule ≠ [] ∧ (∀ c ∈ rule, c ≠ ',') ∧
  ds ≠ [] ∧ (∀ c ∈ ds, c.isDigit = true) ∧
  de ≠ [] ∧ (∀ c ∈ de, c.isDigit = true) ∧
  (∀ c ∈ seg, c ≠ '\n')

/-- The hypotheses of the round-trip claim, exactly as the claim states
them: the rule contains no comma, and no replacement string contains an
occurrence of the separator substring `"@|@"`. -/
abbrev C1Hyp (m : LightweightMatch) : Prop :=
  (∀ c ∈ m.rule, c ≠ ',') ∧
  ∀ r ∈ m.replacements, findSplit LT_REPLACEMENT_SEPARATOR r = none

/-! ## The match model and the response deserialization of `check_text` -/

/-- `LTRule` from `data.py`. -/
structure LTRule where
  rule_id : List Char
  description : List Char
  issue_type : List Char
  category : List Char × List Char
  deriving DecidableEq, Repr

/-- `LTContext` from `data.py`. -/
structure LTContext where
  text : List Char
  offset : Int
  length : Int
  deriving DecidableEq, Repr

/-- `LTMatch` from `data.py`. -/
structure LTMatch where
  rule : LTRule
  start : Int
  «end» : Int
  replacements : List (List Char)
  message : List Char
  short_message : List Char
  context : LTContext
  deriving DecidableEq, Repr

/-- A decoded JSON value, as handed to `check_text` by `response.json()`. -/
inductive JValue where
  | str (s : List Char)
  | num (n : Int)
  | arr (items : List JValue)
  | obj (fields : List (List Char × JValue))

/-- The API key-name constants of `LanguageToolChecker` / `LanguageToolAbstract`. -/
def OFFSET_KEY : List Char := "offset".data

def LENGTH_KEY : List Char := "length".data

def MATCHES_KEY : List Char := "matches".data

def RULE_KEY : List Char := "rule".data

def ID_KEY : List Char := "id".data

def DESCRIPTION_KEY : List Char := "description".data

def VALUE_KEY : List Char := "value".data

def ISSUE_TYPE_KEY : List Char := "issueType".data

def CATEGORY_KEY : List Char := "category".data

def NAME_KEY : List Char := "name".data

def REPLACEMENTS_KEY : List Char := "replacements".data

def MESSAGE_KEY : List Char := "message".data

def SHORT_MESSAGE_KEY : List Char := "shortMessage".data

def CONTEXT_KEY : List Char := "context".data

def TEXT_KEY : List Char := "text".data

/-- Python's `json_value[key]`: look the key up in a JSON object; a missing
key raises (here: returns) `MissingField` naming the key, indexing a
non-object is a type error. -/
def jgetField (j : JValue) (key : List Char) : Except LTError JValue :=
  match j with
  | .obj fields =>
    match fields.find? (fun p => p.1 = key) with
    | some p => .ok p.2
    | none => .error (.MissingField key)
  | _ => .error .WrongType

/-- Extract the string payload of a JSON value (Python would hand the value
through unchecked; the typed model requires the documented string shape). -/
def jstr : JValue → Except LTError (List Char)
  | .str s => .ok s
  | _ => .error .WrongType

/-- Extract the integer payload of a JSON value. -/
def jint : JValue → Except LTError Int
  | .num n => .ok n
  | _ => .error .WrongType

/-- Extract the element list of a JSON array. -/
def jarr : JValue → Except LTError (List JValue)
  | .arr items => .ok items
  | _ => .error .WrongType

/-- One iteration of the match loop of `LanguageToolChecker.check_text`
(`languagetool.py`): from one JSON match object, build the `LTRule` from
`rule.id`, `rule.description`, `rule.issueType`, `rule.category.id`,
`rule.category.name`, the `LTContext` from `context.text`, `context.offset`,
`context.length`, and the `LTMatch` with `start = offset`,
`end = offset + length`, the `value` field of each replacement object,
`message` and `shortMessage`, in the source's evaluation order. -/
def buildLTMatch (json_match : JValue) : Except LTError LTMatch := do
  let json_rule ← jgetField json_match RULE_KEY
  let rid ← jstr (← jgetField json_rule ID_KEY)
  let desc ← jstr (← jgetField json_rule DESCRIPTION_KEY)
  let issue ← jstr (← jgetField json_rule ISSUE_TYPE_KEY)
  let jcat ← jgetField json_rule CATEGORY_KEY
  let catId ← jstr (← jgetField jcat ID_KEY)
  let catName ← jstr (← jgetField jcat NAME_KEY)
  let rule : LTRule := ⟨rid, desc, issue, (catId, catName)⟩
  let jctx ← jgetField json_match CONTEXT_KEY
  let ctxText ← jstr (← jgetField jctx TEXT_KEY)
  let ctxOff ← jint (← jgetField jctx OFFSET_KEY)
  let ctxLen ← jint (← jgetField jctx LENGTH_KEY)
  let context : LTContext := ⟨ctxText, ctxOff, ctxLen⟩
  let offset ← jint (← jgetField json_match OFFSET_KEY)
  let length ← jint (← jgetField json_match LENGTH_KEY)
  let jreps ← jarr (← jgetField json_match REPLACEMENTS_KEY)
  let reps ← jreps.mapM (fun jr => do jstr (← jgetField jr VALUE_KEY))
  let msg ← jstr (← jgetField json_match MESSAGE_KEY)
  let smsg ← jstr (← jgetField json_match SHORT_MESSAGE_KEY)
  return ⟨rule, offset, offset + length, reps, msg, smsg, context⟩

/-- The response-processing tail of `LanguageToolChecker.check_text`: iterate
over `json_response["matches"]` and build one `LTMatch` per entry; any
failure aborts the whole call with no partial result. -/
def check_text_matches (json_response : JValue) : Except LTError (List LTMatch) := do
  let jmatches ← jarr (← jgetField json_response MATCHES_KEY)
  jmatches.mapM buildLTMatch

/-- A concrete well-formed response match object with `offset = 10` and
`length = 4`, as in the spec's concrete scenario 5. -/
def exampleMatchObj : JValue := .obj
  [(RULE_KEY, .obj
      [(ID_KEY, .str "UPPERCASE_SENTENCE_START".data),
       (DESCRIPTION_KEY, .str "Checks that a sentence starts uppercase".data),
       (ISSUE_TYPE_KEY, .str "typographical".data),
       (CATEGORY_KEY, .obj
         [(ID_KEY, .str "CASING".data),
          (NAME_KEY, .str "Capitalization".data)])]),
   (CONTEXT_KEY, .obj
      [(TEXT_KEY, .str "some text here".data),
       (OFFSET_KEY, .num 2),
       (LENGTH_KEY, .num 4)]),
   (OFFSET_KEY, .num 10),
   (LENGTH_KEY, .num 4),
   (REPLACEMENTS_KEY, .arr [.obj [(VALUE_KEY, .str "Fix".data)]]),
   (MESSAGE_KEY, .str "This sentence does not start uppercase".data),
   (SHORT_MESSAGE_KEY, .str "Wrong casing".data)]

/-- The `LTMatch` that `check_text` builds from `exampleMatchObj`. -/
def exampleMatch : LTMatch :=
  ⟨⟨"UPPERCASE_SENTENCE_START".data, "Checks that a sentence starts uppercase".data,
    "typographical".data, ("CASING".data, "Capitalization".data)⟩,
   10, 14, ["Fix".data],
   "This sentence does not start uppercase".data, "Wrong casing".data,
   ⟨"some text here".data, 2, 4⟩⟩

/-- A response match object with every required key except `message`; the
other fields are arbitrary.  The replacement array is empty, which
`check_text` accepts (it yields an empty replacements tuple). -/
def matchObjNoMessage (rid desc issue catId catName ctxText : List Char)
    (ctxOff ctxLen off len : Int) (smsg : List Char) : JValue := .obj
  [(RULE_KEY, .obj
      [(ID_KEY, .str rid),
       (DESCRIPTION_KEY, .str desc),
       (ISSUE_TYPE_KEY, .str issue),
       (CATEGORY_KEY, .obj [(ID_KEY, .str catId), (NAME_KEY, .str catName)])]),
   (CONTEXT_KEY, .obj
      [(TEXT_KEY, .str ctxText),
       (OFFSET_KEY, .num ctxOff),
       (LENGTH_KEY, .num ctxLen)]),
   (OFFSET_KEY, .num off),
   (LENGTH_KEY, .num len),
   (REPLACEMENTS_KEY, .arr []),
   (SHORT_MESSAGE_KEY, .str smsg)]

/-- A concrete response match object with every required key present except
`context`, which is absent together with its sub-fields. -/
def matchObjNoContext : JValue := .obj
  [(RULE_KEY, .obj
      [(ID_KEY, .str "TYPOS".data),
       (DESCRIPTION_KEY, .str "Possible typo".data),
       (ISSUE_TYPE_KEY, .str "misspelling".data),
       (CATEGORY_KEY, .obj
         [(ID_KEY, .str "TYPOS".data), (NAME_KEY, .str "Possible Typo".data)])]),
   (OFFSET_KEY, .num 10),
   (LENGTH_KEY, .num 4),
   (REPLACEMENTS_KEY, .arr [.obj [(VALUE_KEY, .str "colour".data)]]),
   (MESSAGE_KEY, .str "Possible spelling mistake found.".data),
   (SHORT_MESSAGE_KEY, .str "Spelling mistake".data)]

/-- Every key that `check_text` reads while building one match, present at
its lookup site: the required top-level keys of the match object, the
required sub-keys of its rule, category and context objects, and the
`value` key of every replacement object. -/
abbrev RequiredKeysPresent (jm : JValue) : Prop :=
  (∃ jrule, jgetField jm RULE_KEY = .ok jrule ∧
    (∃ v, jgetField jrule ID_KEY = .ok v) ∧
    (∃ v, jgetField jrule DESCRIPTION_KEY = .ok v) ∧
    (∃ v, jgetField jrule ISSUE_TYPE_KEY = .ok v) ∧
    (∃ jcat, jgetField jrule CATEGORY_KEY = .ok jcat ∧
      (∃ v, jgetField jcat ID_KEY = .ok v) ∧
      (∃ v, jgetField jcat NAME_KEY = .ok v))) ∧
  (∃ jctx, jgetField jm CONTEXT_KEY = .ok jctx ∧
    (∃ v, jgetField jctx TEXT_KEY = .ok v) ∧
    (∃ v, jgetField jctx OFFSET_KEY = .ok v) ∧
    (∃ v, jgetField jctx LENGTH_KEY = .ok v)) ∧
  (∃ v, jgetField jm OFFSET_KEY = .ok v) ∧
  (∃ v, jgetField jm LENGTH_KEY = .ok v) ∧
  (∃ items, jgetField jm REPLACEMENTS_KEY = .ok (.arr items) ∧
    ∀ jr ∈ items, ∃ v, jgetField jr VALUE_KEY = .ok v) ∧
  (∃ v, jgetField jm MESSAGE_KEY = .ok v) ∧
  (∃ v, jgetField jm SHORT_MESSAGE_KEY = .ok v)

/-- The key `k` is genuinely absent from the object in which `check_text`
looked it up: absent from the match object itself, from its rule object,
from the rule's category object, from its context object, or from one of
its replacement objects (a `jgetField` result of `MissingField k` means
the value is an object whose field list lacks `k`). -/
abbrev MissingAt (jm : JValue) (k : List Char) : Prop :=
  jgetField jm k = .error (.MissingField k) ∨
  (∃ jrule, jgetField jm RULE_KEY = .ok jrule ∧
    jgetField jrule k = .error (.MissingField k)) ∨
  (∃ jrule jcat, jgetField jm RULE_KEY = .ok jrule ∧
    jgetField jrule CATEGORY_KEY = .ok jcat ∧
    jgetField jcat k = .error (.MissingField k)) ∨
  (∃ jctx, jgetField jm CONTEXT_KEY = .ok jctx ∧
    jgetField jctx k = .error (.MissingField k)) ∨
  (∃ items jr, jgetField jm REPLACEMENTS_KEY = .ok (.arr items) ∧ jr ∈ items ∧
    jgetField jr k = .error (.MissingField k))

/-! ## Helper lemmas: greedy scanning, decimal digits, split and join -/

theorem takeWhile_append_sat {α : Type} {p : α → Bool} (xs : List α) (y : α) (ys : List α)
    (hall : ∀ x ∈ xs, p x = true) (hy : p y = false) :
    (xs ++ y :: ys).takeWhile p = xs := by
  induction xs with
  | nil => simp [List.takeWhile_cons, hy]
  | cons x xs ih =>
    have hx := hall x (by simp)
    simp [List.takeWhile_cons, hx, ih fun a ha => hall a (by simp [ha])]

theorem dropWhile_append_sat {α : Type} {p : α → Bool} (xs : List α) (y : α) (ys : List α)
    (hall : ∀ x ∈ xs, p x = true) (hy : p y = false) :
    (xs ++ y :: ys).dropWhile p = y :: ys := by
  induction xs with
  | nil => simp [List.dropWhile_cons, hy]
  | cons x xs ih =>
    have hx := hall x (by simp)
    simp [List.dropWhile_cons, hx, ih fun a ha => hall a (by simp [ha])]

theorem digitChar_isDigit {d : Nat} (h : d < 10) : (digitChar d).isDigit = true := by
  interval_cases d <;> decide

theorem digitVal_digitChar {d : Nat} (h : d < 10) : digitVal (digitChar d) = d := by
  interval_cases d <;> decide

theorem natReprFuel_digits {fuel : Nat} :
    ∀ {n : Nat}, n < fuel → ∀ c ∈ natReprFuel fuel n, c.isDigit = true := by
  induction fuel with
  | zero => intro n h; omega
  | succ f ih =>
    intro n h c hc
    by_cases h10 : n < 10
    · simp [natReprFuel, h10] at hc
      exact hc ▸ digitChar_isDigit h10
    · simp [natReprFuel, h10] at hc
      rcases hc with hc | hc
      · exact ih (by omega) c hc
      · exact hc ▸ digitChar_isDigit (by omega)

theorem natReprFuel_ne_nil {fuel n : Nat} (h : n < fuel) : natReprFuel fuel n ≠ [] := by
  cases fuel with
  | zero => omega
  | succ f => by_cases h10 : n < 10 <;> simp [natReprFuel, h10]

theorem parseNat_append (xs : List Char) (c : Char) :
    parseNat (xs ++ [c]) = parseNat xs * 10 + digitVal c := by
  simp [parseNat, List.foldl_append]

theorem parseNat_natReprFuel {fuel : Nat} :
    ∀ {n : Nat}, n < fuel → parseNat (natReprFuel fuel n) = n := by
  induction fuel with
  | zero => intro n h; omega
  | succ f ih =>
    intro n h
    by_cases h10 : n < 10
    · simp [natReprFuel, h10, parseNat, digitVal_digitChar h10]
    · simp only [natReprFuel, if_neg h10]
      rw [parseNat_append, ih (by omega), digitVal_digitChar (by omega)]
      omega

theorem natRepr_digits {n : Nat} : ∀ c ∈ natRepr n, c.isDigit = true :=
  natReprFuel_digits (Nat.lt_succ_self n)

theorem natRepr_ne_nil {n : Nat} : natRepr n ≠ [] :=
  natReprFuel_ne_nil (Nat.lt_succ_self n)

theorem parseNat_natRepr (n : Nat) : parseNat (natRepr n) = n :=
  parseNat_natReprFuel (Nat.lt_succ_self n)

theorem isPrefixOf_append_self {α : Type} [BEq α] [LawfulBEq α] (l t : List α) :
    l.isPrefixOf (l ++ t) = true := by
  induction l with
  | nil => simp [List.isPrefixOf]
  | cons a l ih => simp [List.isPrefixOf, ih]

theorem findSplit_sep (ch : Char) (ctl : List Char) (t : List Char) {r : List Char}
    (hr : ∀ c ∈ r, c ≠ ch) :
    findSplit (ch :: ctl) (r ++ (ch :: ctl) ++ t) = some (r, t) := by
  induction r with
  | nil =>
    show findSplit (ch :: ctl) ((ch :: ctl) ++ t) = some ([], t)
    simp [findSplit, isPrefixOf_append_self, List.drop_left]
  | cons a r ih =>
    have hne : (ch == a) = false :=
      beq_eq_false_iff_ne.mpr (Ne.symm (hr a (List.mem_cons_self a r)))
    have ih2 := ih fun c hc => hr c (List.mem_cons_of_mem a hc)
    simp only [List.append_assoc, List.cons_append] at ih2
    simp [List.cons_append, findSplit, List.isPrefixOf, hne, ih2]

theorem findSplit_none_of (ch : Char) (ctl : List Char) {r : List Char}
    (hr : ∀ c ∈ r, c ≠ ch) : findSplit (ch :: ctl) r = none := by
  induction r with
  | nil => rfl
  | cons a r ih =>
    have hne : (ch == a) = false :=
      beq_eq_false_iff_ne.mpr (Ne.symm (hr a (List.mem_cons_self a r)))
    simp [findSplit, List.isPrefixOf, hne,
      ih fun c hc => hr c (List.mem_cons_of_mem a hc)]

theorem splitFuel_join (ch : Char) (ctl : List Char) :
    ∀ (rs : List (List Char)) (fuel : Nat), (∀ r ∈ rs, ∀ c ∈ r, c ≠ ch) → rs ≠ [] →
      rs.length ≤ fuel + 1 → splitFuel (ch :: ctl) fuel (joinSep (ch :: ctl) rs) = rs := by
  intro rs
  induction rs with
  | nil => intro fuel _ hne _; exact absurd rfl hne
  | cons r rest ih =>
    intro fuel hclean _ hlen
    cases rest with
    | nil =>
      cases fuel with
      | zero => simp [splitFuel, joinSep]
      | succ f => simp [splitFuel, joinSep, findSplit_none_of ch ctl (hclean r (by simp))]
    | cons r2 rest2 =>
      cases fuel with
      | zero => simp [List.length_cons] at hlen
      | succ f =>
        have hstep := findSplit_sep ch ctl (joinSep (ch :: ctl) (r2 :: rest2))
          (hclean r (by simp))
        simp only [joinSep, splitFuel, hstep]
        rw [ih f (fun r1 hr1 => hclean r1 (by simp [hr1])) (by simp)
          (by simp [List.length_cons] at hlen ⊢; omega)]

theorem joinSep_length_ge (ch : Char) (ctl : List Char) (rs : List (List Char)) :
    rs.length ≤ (joinSep (ch :: ctl) rs).length + 1 := by
  induction rs with
  | nil => simp [joinSep]
  | cons r rest ih =>
    cases rest with
    | nil => simp [joinSep]
    | cons r2 rest2 =>
      simp [joinSep, List.length_append] at ih ⊢
      omega

theorem splitOnSep_join (ch : Char) (ctl : List Char) {rs : List (List Char)}
    (hclean : ∀ r ∈ rs, ∀ c ∈ r, c ≠ ch) (hne : rs ≠ []) :
    splitOnSep (ch :: ctl) (joinSep (ch :: ctl) rs) = rs := by
  have hlen := joinSep_length_ge ch ctl rs
  simp only [splitOnSep, List.length_cons, if_pos (Nat.succ_pos ctl.length)]
  exact splitFuel_join ch ctl rs _ hclean hne (by omega)

theorem mem_joinSep {sep : List Char} {rs : List (List Char)} {c : Char}
    (hc : c ∈ joinSep sep rs) : (∃ r ∈ rs, c ∈ r) ∨ c ∈ sep := by
  induction rs with
  | nil => simp [joinSep] at hc
  | cons r rest ih =>
    cases rest with
    | nil =>
      simp [joinSep] at hc
      exact Or.inl ⟨r, by simp, hc⟩
    | cons r2 rest2 =>
      simp only [joinSep, List.append_assoc, List.mem_append] at hc
      rcases hc with hc | hc | hc
      · exact Or.inl ⟨r, List.mem_cons_self r (r2 :: rest2), hc⟩
      · exact Or.inr hc
      · rcases ih hc with ⟨r1, hr1, hcr1⟩ | hc2
        · exact Or.inl ⟨r1, List.mem_cons_of_mem r hr1, hcr1⟩
        · exact Or.inr hc2

/-! ## Soundness and completeness of the regex scan -/

theorem matchLTRegex_complete_aux {rule ds de seg tail : List Char}
    (hrule_ne : rule ≠ []) (hrule : ∀ c ∈ rule, c ≠ ',')
    (hds_ne : ds ≠ []) (hds : ∀ c ∈ ds, c.isDigit = true)
    (hde_ne : de ≠ []) (hde : ∀ c ∈ de, c.isDigit = true)
    (hseg : ∀ c ∈ seg, c ≠ '\x7d')
    (htail : tail = [] ∨ tail = ['\n']) :
    matchLTRegex ('(' :: (rule ++ ',' :: (ds ++ ',' :: (de ++ ')' :: '\x7b' ::
      (seg ++ '\x7d' :: tail))))) = some (rule, ds, de, seg) := by
  have h1t := takeWhile_append_sat (p := fun c => c != ',')
    rule ',' (ds ++ ',' :: (de ++ ')' :: '\x7b' :: (seg ++ '\x7d' :: tail)))
    (fun c hc => bne_iff_ne.mpr (hrule c hc)) (by simp)
  have h1d := dropWhile_append_sat (p := fun c => c != ',')
    rule ',' (ds ++ ',' :: (de ++ ')' :: '\x7b' :: (seg ++ '\x7d' :: tail)))
    (fun c hc => bne_iff_ne.mpr (hrule c hc)) (by simp)
  have h2t := takeWhile_append_sat (p := Char.isDigit)
    ds ',' (de ++ ')' :: '\x7b' :: (seg ++ '\x7d' :: tail)) hds (by decide)
  have h2d := dropWhile_append_sat (p := Char.isDigit)
    ds ',' (de ++ ')' :: '\x7b' :: (seg ++ '\x7d' :: tail)) hds (by decide)
  have h3t := takeWhile_append_sat (p := Char.isDigit)
    de ')' ('\x7b' :: (seg ++ '\x7d' :: tail)) hde (by decide)
  have h3d := dropWhile_append_sat (p := Char.isDigit)
    de ')' ('\x7b' :: (seg ++ '\x7d' :: tail)) hde (by decide)
  have h4t := takeWhile_append_sat (p := fun c => c != '\x7d')
    seg '\x7d' tail (fun c hc => bne_iff_ne.mpr (hseg c hc)) (by simp)
  have h4d := dropWhile_append_sat (p := fun c => c != '\x7d')
    seg '\x7d' tail (fun c hc => bne_iff_ne.mpr (hseg c hc)) (by simp)
  have e1 : rule.isEmpty = false := by
    cases rule with
    | nil => exact absurd rfl hrule_ne
    | cons a l => rfl
  have e2 : ds.isEmpty = false := by
    cases ds with
    | nil => exact absurd rfl hds_ne
    | cons a l => rfl
  have e3 : de.isEmpty = false := by
    cases de with
    | nil => exact absurd rfl hde_ne
    | cons a l => rfl
  rcases htail with h | h <;>
    subst h <;>
    simp [matchLTRegex, h1t, h1d, e1, h2t, h2d, e2, h3t, h3d, e3, h4t, h4d]

theorem matchLTRegex_complete {s rule ds de seg : List Char}
    (h : CodeGrammar s rule ds de seg) :
    matchLTRegex s = some (rule, ds, de, seg) := by
  obtain ⟨hs, hrule_ne, hrule, hds_ne, hds, hde_ne, hde, hseg⟩ := h
  rcases hs with hs | hs <;> subst hs
  · exact matchLTRegex_complete_aux hrule_ne hrule hds_ne hds hde_ne hde hseg (Or.inl rfl)
  · exact matchLTRegex_complete_aux hrule_ne hrule hds_ne hds hde_ne hde hseg (Or.inr rfl)

theorem matchLTRegex_sound {s rule ds de seg : List Char}
    (h : matchLTRegex s = some (rule, ds, de, seg)) :
    CodeGrammar s rule ds de seg := by
  unfold matchLTRegex at h
  split at h
  case h_2 => simp at h
  case h_1 r0 =>
  simp only [] at h
  split at h
  case h_2 => simp at h
  case h_1 r2 heq1 =>
  split at h
  case isTrue => simp at h
  case isFalse hne1 =>
  split at h
  case h_2 => simp at h
  case h_1 r4 heq2 =>
  split at h
  case isTrue => simp at h
  case isFalse hne2 =>
  split at h
  case h_2 => simp at h
  case h_1 r6 heq3 =>
  split at h
  case isTrue => simp at h
  case isFalse hne3 =>
  split at h
  case h_2 => simp at h
  case h_1 r8 heq4 =>
  split at h
  case isFalse => simp at h
  case isTrue htail =>
  simp only [Option.some.injEq, Prod.mk.injEq] at h
  obtain ⟨hr, hd, he, hg⟩ := h
  have d1 : r0 = rule ++ ',' :: r2 := by
    rw [← hr, ← heq1, List.takeWhile_append_dropWhile]
  have d2 : r2 = ds ++ ',' :: r4 := by
    rw [← hd, ← heq2, List.takeWhile_append_dropWhile]
  have d3 : r4 = de ++ ')' :: '\x7b' :: r6 := by
    rw [← he, ← heq3, List.takeWhile_append_dropWhile]
  have d4 : r6 = seg ++ '\x7d' :: r8 := by
    rw [← hg, ← heq4, List.takeWhile_append_dropWhile]
  refine ⟨?_, ?_, ?_, ?_, ?_, ?_, ?_, ?_⟩
  · rcases htail with h8 | h8 <;> subst h8
    · exact Or.inl (by rw [d1, d2, d3, d4])
    · exact Or.inr (by rw [d1, d2, d3, d4])
  · intro hnil
    exact hne1 (by rw [hr, hnil]; rfl)
  · intro c hc
    rw [← hr] at hc
    exact bne_iff_ne.mp (List.mem_takeWhile_imp (p := fun c => c != ',') hc)
  · intro hnil
    exact hne2 (by rw [hd, hnil]; rfl)
  · intro c hc
    rw [← hd] at hc
    exact List.mem_takeWhile_imp hc
  · intro hnil
    exact hne3 (by rw [he, hnil]; rfl)
  · intro c hc
    rw [← he] at hc
    exact List.mem_takeWhile_imp hc
  · intro c hc
    rw [← hg] at hc
    exact bne_iff_ne.mp (List.mem_takeWhile_imp (p := fun c => c != '\x7d') hc)

theorem intRepr_of_nonneg {i : Int} (h : 0 ≤ i) : intRepr i = natRepr i.toNat := by
  simp [intRepr, not_lt.mpr h]

theorem to_short_string_shape (m : LightweightMatch) (hs : 0 ≤ m.start)
    (he : 0 ≤ m.«end») :
    to_short_string m = '(' :: (m.rule ++ ',' :: (natRepr m.start.toNat ++ ',' ::
      (natRepr m.«end».toNat ++ ')' :: '\x7b' ::
        (joinSep LT_REPLACEMENT_SEPARATOR m.replacements ++ '\x7d' :: ([] : List Char))))) := by
  simp [to_short_string, intRepr_of_nonneg hs, intRepr_of_nonneg he, List.append_assoc]

theorem joinSep_eq_intercalate (sep : List Char) (rs : List (List Char)) :
    joinSep sep rs = List.intercalate sep rs := by
  induction rs with
  | nil => simp [joinSep, List.intercalate]
  | cons r rest ih =>
    cases rest with
    | nil => simp [joinSep, List.intercalate]
    | cons r2 rest2 =>
      simp [joinSep, List.intercalate, List.intersperse] at ih ⊢
      simp [ih, List.append_assoc]

/-! ## Claims about the compact codec -/

/-- C1, corrected: the round-trip law fails as stated.  Five Lightweight
Matches that satisfy the claim's hypotheses (comma-free rule, no replacement
containing an occurrence of the separator substring) yet do not survive
`from_short_string ∘ to_short_string`: an empty replacement tuple, a join
boundary artifact (`"x@|"` followed by `"y"` re-splits as `"x"`,`"|@y"`),
a brace inside a replacement, an empty rule, and a negative start. -/
theorem c1_counterexample :
    (C1Hyp ⟨"R".data, 0, 1, []⟩ ∧
      from_short_string (to_short_string ⟨"R".data, 0, 1, []⟩) ≠
        .ok ⟨"R".data, 0, 1, []⟩) ∧
    (C1Hyp ⟨"R".data, 0, 1, ["x@|".data, "y".data]⟩ ∧
      from_short_string (to_short_string ⟨"R".data, 0, 1, ["x@|".data, "y".data]⟩) ≠
        .ok ⟨"R".data, 0, 1, ["x@|".data, "y".data]⟩) ∧
    (C1Hyp ⟨"R".data, 0, 1, ["a\x7db".data]⟩ ∧
      from_short_string (to_short_string ⟨"R".data, 0, 1, ["a\x7db".data]⟩) ≠
        .ok ⟨"R".data, 0, 1, ["a\x7db".data]⟩) ∧
    (C1Hyp ⟨[], 0, 1, ["a".data]⟩ ∧
      from_short_string (to_short_string ⟨[], 0, 1, ["a".data]⟩) ≠
        .ok ⟨[], 0, 1, ["a".data]⟩) ∧
    (C1Hyp ⟨"R".data, -1, 0, ["a".data]⟩ ∧
      from_short_string (to_short_string ⟨"R".data, -1, 0, ["a".data]⟩) ≠
        .ok ⟨"R".data, -1, 0, ["a".data]⟩) := by decide

/-- C1, amended: for every Lightweight Match whose rule is non-empty and
comma-free, whose start and end are non-negative, and whose replacements
form a non-empty sequence of strings containing neither the separator's
characters (no `@`) nor a closing brace, decoding the encoding returns the
original match. -/
theorem c1_round_trip (m : LightweightMatch)
    (h1 : m.rule ≠ []) (h2 : ∀ c ∈ m.rule, c ≠ ',')
    (h3 : 0 ≤ m.start) (h4 : 0 ≤ m.«end»)
    (h5 : m.replacements ≠ [])
    (h6 : ∀ r ∈ m.replacements, ∀ c ∈ r, c ≠ '@' ∧ c ≠ '\x7d') :
    from_short_string (to_short_string m) = .ok m := by
  have hsep : LT_REPLACEMENT_SEPARATOR = '@' :: ['|', '@'] := rfl
  have hseg : ∀ c ∈ joinSep LT_REPLACEMENT_SEPARATOR m.replacements, c ≠ '\x7d' := by
    intro c hc
    rcases mem_joinSep hc with ⟨r, hr, hcr⟩ | hcs
    · exact (h6 r hr c hcr).2
    · rw [hsep] at hcs
      simp at hcs
      rcases hcs with hcs | hcs | hcs <;> subst hcs <;> decide
  have hmatch : matchLTRegex (to_short_string m) =
      some (m.rule, natRepr m.start.toNat, natRepr m.«end».toNat,
        joinSep LT_REPLACEMENT_SEPARATOR m.replacements) := by
    rw [to_short_string_shape m h3 h4]
    exact matchLTRegex_complete_aux h1 h2 natRepr_ne_nil natRepr_digits
      natRepr_ne_nil natRepr_digits hseg (Or.inl rfl)
  have hsplit : splitOnSep LT_REPLACEMENT_SEPARATOR
      (joinSep LT_REPLACEMENT_SEPARATOR m.replacements) = m.replacements := by
    rw [hsep] at *
    exact splitOnSep_join '@' ['|', '@'] (fun r hr c hc => (h6 r hr c hc).1) h5
  have hst : Int.ofNat m.start.toNat = m.start := by
    rw [Int.ofNat_eq_coe, Int.toNat_of_nonneg h3]
  have hen : Int.ofNat m.«end».toNat = m.«end» := by
    rw [Int.ofNat_eq_coe, Int.toNat_of_nonneg h4]
  simp only [from_short_string, hmatch, parseNat_natRepr, hsplit, hst, hen]

/-- Witness for the amended C1 at a concrete match. -/
theorem c1_round_trip_witness :
    (("TYPO".data : List Char) ≠ [] ∧ (∀ c ∈ "TYPO".data, c ≠ ',') ∧
      (0 : Int) ≤ 0 ∧ (0 : Int) ≤ 3 ∧
      (["ab".data, "c".data] : List (List Char)) ≠ [] ∧
      (∀ r ∈ [("ab".data : List Char), "c".data], ∀ c ∈ r, c ≠ '@' ∧ c ≠ '\x7d')) ∧
    from_short_string (to_short_string ⟨"TYPO".data, 0, 3, ["ab".data, "c".data]⟩) =
      .ok ⟨"TYPO".data, 0, 3, ["ab".data, "c".data]⟩ :=
  ⟨⟨by decide, by decide, by decide, by decide, by decide, by decide⟩,
    c1_round_trip _ (by decide) (by decide) (by decide) (by decide) (by decide)
      (by decide)⟩

/-- C2, corrected: the claim's grammar is wrong about the replacements
segment.  The input `"(R,1,2)\x7ba\x7db\x7d"` matches the claim's grammar
`^\(([^,]+),(\d+),(\d+)\)\x7b(.*)\x7d$` (segment `"a\x7db"`, everything
between the final brace pair), but the code's regex — whose replacements
class is `[^\x7d]*`, not `.*` — rejects it, so decoding fails instead of
succeeding. -/
theorem c2_counterexample :
    ClaimGrammar "(R,1,2)\x7ba\x7db\x7d".data "R".data "1".data "2".data "a\x7db".data ∧
    from_short_string "(R,1,2)\x7ba\x7db\x7d".data =
      .error (.MalformedAnnotationError "(R,1,2)\x7ba\x7db\x7d".data) := by decide

/-- C2, amended: for every input matching the code's anchored grammar —
rule up to the first comma, non-negative decimal start and end, and a
replacements segment that contains no closing brace — decoding succeeds
and returns the captured rule, the parsed integers, and the
separator-split of the replacements segment. -/
theorem c2_decode_sound (s rule ds de seg : List Char)
    (h : CodeGrammar s rule ds de seg) :
    from_short_string s = .ok ⟨rule, Int.ofNat (parseNat ds), Int.ofNat (parseNat de),
      splitOnSep LT_REPLACEMENT_SEPARATOR seg⟩ := by
  simp [from_short_string, matchLTRegex_complete h]

/-- Witness for the amended C2 at a concrete grammar-conforming input. -/
theorem c2_decode_sound_witness :
    CodeGrammar "(R,4,9)\x7ba@|@b\x7d".data "R".data "4".data "9".data "a@|@b".data ∧
    from_short_string "(R,4,9)\x7ba@|@b\x7d".data =
      .ok ⟨"R".data, Int.ofNat (parseNat "4".data), Int.ofNat (parseNat "9".data),
        splitOnSep LT_REPLACEMENT_SEPARATOR "a@|@b".data⟩ :=
  ⟨by decide, c2_decode_sound _ _ _ _ _ (by decide)⟩

/-- C3, confirmed: on every input that admits no decomposition under the
decode grammar, `from_short_string` fails with the malformed-annotation
error carrying the offending input string — for any separator argument,
and with no partial result (the `Except` value carries nothing else). -/
theorem c3_malformed_error (s sep : List Char)
    (h : ¬ ∃ rule ds de seg, CodeGrammar s rule ds de seg) :
    from_short_string s sep = .error (.MalformedAnnotationError s) := by
  cases hm : matchLTRegex s with
  | none => simp [from_short_string, hm]
  | some q =>
    obtain ⟨r, d, e, g⟩ := q
    exact absurd ⟨r, d, e, g, matchLTRegex_sound hm⟩ h

/-- Witness for C3 at the spec's concrete scenario `"not-a-match"`. -/
theorem c3_malformed_error_witness :
    from_short_string "not-a-match".data LT_REPLACEMENT_SEPARATOR =
      .error (.MalformedAnnotationError "not-a-match".data) := by
  refine c3_malformed_error _ _ ?_
  rintro ⟨rule, ds, de, seg, hg⟩
  have hsome := matchLTRegex_complete hg
  have hnone : matchLTRegex "not-a-match".data = none := by decide
  rw [hnone] at hsome
  exact Option.noConfusion hsome

/-- C4, confirmed: the encoder produces exactly
`"(" ++ rule ++ "," ++ str(start) ++ "," ++ str(end) ++ "){" ++
(replacements joined with "@|@") ++ "}"`, the join being
`List.intercalate`, with no escaping of any character of the rule or of
the replacement strings. -/
theorem c4_encode_exact (m : LightweightMatch) :
    to_short_string m = ['('] ++ m.rule ++ [','] ++ intRepr m.start ++ [','] ++
      intRepr m.«end» ++ [')', '\x7b'] ++
      List.intercalate LT_REPLACEMENT_SEPARATOR m.replacements ++ ['\x7d'] := by
  simp [to_short_string, joinSep_eq_intercalate, List.append_assoc]

/-- C5, confirmed: decoding `"(TYPO,0,3)\x7b\x7d"` yields the one-element
replacement sequence containing the empty string — not the empty
sequence — and re-encoding that match restores the input exactly. -/
theorem c5_empty_replacements :
    from_short_string "(TYPO,0,3)\x7b\x7d".data = .ok ⟨"TYPO".data, 0, 3, [[]]⟩ ∧
    ([[]] : List (List Char)) ≠ [] ∧
    to_short_string ⟨"TYPO".data, 0, 3, [[]]⟩ = "(TYPO,0,3)\x7b\x7d".data := by decide

/-- C6, corrected: the decoder never checks `start ≤ end`.  The input
`"(R,5,2)\x7ba\x7d"` decodes successfully to a match with `start = 5`
greater than `end = 2`, contradicting the claimed invariant. -/
theorem c6_counterexample :
    from_short_string "(R,5,2)\x7ba\x7d".data = .ok ⟨"R".data, 5, 2, ["a".data]⟩ ∧
    ¬ ((5 : Int) ≤ 2) := by decide

/-- C6, amended: every Lightweight Match returned by `from_short_string`
has a non-empty rule and non-negative start and end (the regex groups are
`[^,]+` and `[0-9]+`); `start ≤ end` is not enforced. -/
theorem c6_decoded_invariant (s sep : List Char) (m : LightweightMatch)
    (h : from_short_string s sep = .ok m) :
    m.rule ≠ [] ∧ 0 ≤ m.start ∧ 0 ≤ m.«end» := by
  cases hm : matchLTRegex s with
  | none => simp [from_short_string, hm] at h
  | some q =>
    obtain ⟨r, d, e, g⟩ := q
    have hg := matchLTRegex_sound hm
    simp only [from_short_string, hm, Except.ok.injEq] at h
    subst h
    exact ⟨hg.2.1, by simp [Int.ofNat_eq_coe], by simp [Int.ofNat_eq_coe]⟩

/-- Witness for the amended C6 at a concrete decode. -/
theorem c6_decoded_invariant_witness :
    from_short_string "(R,0,1)\x7ba\x7d".data LT_REPLACEMENT_SEPARATOR =
      .ok ⟨"R".data, 0, 1, ["a".data]⟩ ∧
    (("R".data : List Char) ≠ [] ∧ (0 : Int) ≤ 0 ∧ (0 : Int) ≤ 1) :=
  ⟨by decide, c6_decoded_invariant "(R,0,1)\x7ba\x7d".data LT_REPLACEMENT_SEPARATOR
    ⟨"R".data, 0, 1, ["a".data]⟩ (by decide)⟩

/-- C7, confirmed: decoding `"(R,1,2)\x7ba||b||c\x7d"` with the explicit
custom separator `"||"` splits the replacements segment on `"||"`,
yielding the replacements `"a"`, `"b"`, `"c"`. -/
theorem c7_custom_separator :
    from_short_string "(R,1,2)\x7ba||b||c\x7d".data "||".data =
      .ok ⟨"R".data, 1, 2, ["a".data, "b".data, "c".data]⟩ := by decide

/-! ## Claims about the response deserialization of `check_text` -/

theorem bind_eq_ok {ε α β : Type} {x : Except ε α} {f : α → Except ε β} {b : β} :
    x >>= f = .ok b ↔ ∃ a, x = .ok a ∧ f a = .ok b := by
  cases x <;> simp [Bind.bind, Except.bind]

/-- C8, confirmed: every `LTMatch` that `check_text` builds from a response
match object has `start` equal to the object's `offset` field and `end`
equal to `offset + length` (exclusive end). -/
theorem c8_span_from_offset_length (jm : JValue) (m : LTMatch) (off len : Int)
    (hm : buildLTMatch jm = .ok m)
    (hoff : jgetField jm OFFSET_KEY = .ok (.num off))
    (hlen : jgetField jm LENGTH_KEY = .ok (.num len)) :
    m.start = off ∧ m.«end» = off + len := by
  simp only [buildLTMatch, bind_eq_ok, pure, Except.pure] at hm
  obtain ⟨jrule, hjrule, jid, hjid, rid, hrid, jdesc, hjdesc, desc, hdesc,
    jissue, hjissue, issue, hissue, jcat, hjcat, jcatid, hjcatid, catId, hcatId,
    jcatname, hjcatname, catName, hcatName, jctx, hjctx, jctxt, hjctxt,
    ctxText, hctxText, jctxo, hjctxo, ctxOff, hctxOff, jctxl, hjctxl,
    ctxLen, hctxLen, joff, hjoff, offv, hoffv, jlen, hjlen, lenv, hlenv,
    jrepsv, hjrepsv, jreps, hjreps, reps, hreps, jmsg, hjmsg, msg, hmsg,
    jsmsg, hjsmsg, smsg, hsmsg, hfin⟩ := hm
  rw [hoff] at hjoff
  rw [hlen] at hjlen
  have hj1 : joff = .num off := by
    have := hjoff
    simp at this
    exact this.symm
  have hj2 : jlen = .num len := by
    have := hjlen
    simp at this
    exact this.symm
  subst hj1
  subst hj2
  simp [jint] at hoffv hlenv
  subst hoffv
  subst hlenv
  simp only [Except.ok.injEq] at hfin
  rw [← hfin]
  exact ⟨rfl, rfl⟩

/-- Witness for C8 at the spec's concrete scenario: a response object with
`offset = 10` and `length = 4` yields `start = 10` and `end = 14`. -/
theorem c8_span_from_offset_length_witness :
    buildLTMatch exampleMatchObj = .ok exampleMatch ∧
    jgetField exampleMatchObj OFFSET_KEY = .ok (.num 10) ∧
    jgetField exampleMatchObj LENGTH_KEY = .ok (.num 4) ∧
    exampleMatch.start = 10 ∧ exampleMatch.«end» = 10 + 4 :=
  ⟨rfl, rfl, rfl,
    c8_span_from_offset_length exampleMatchObj exampleMatch 10 4 rfl rfl rfl⟩

theorem bind_eq_error {ε α β : Type} {x : Except ε α} {f : α → Except ε β} {e : ε} :
    x >>= f = .error e ↔ x = .error e ∨ ∃ a, x = .ok a ∧ f a = .error e := by
  cases x <;> simp [Bind.bind, Except.bind]

theorem mapM_loop_ok {ε α β : Type} {f : α → Except ε β} :
    ∀ (l : List α) (acc out : List β), List.mapM.loop f l acc = .ok out →
      ∀ x ∈ l, ∃ y, f x = .ok y := by
  intro l
  induction l with
  | nil => intro acc out h x hx; simp at hx
  | cons a as ih =>
    intro acc out h x hx
    rw [List.mapM.loop, bind_eq_ok] at h
    obtain ⟨b, hb, hrest⟩ := h
    rcases List.mem_cons.mp hx with rfl | hx2
    · exact ⟨b, hb⟩
    · exact ih _ _ hrest x hx2

theorem exceptMapM_ok {ε α β : Type} {f : α → Except ε β} {l : List α} {out : List β}
    (h : l.mapM f = .ok out) : ∀ x ∈ l, ∃ y, f x = .ok y :=
  mapM_loop_ok l [] out h

theorem mapM_loop_error {ε α β : Type} {f : α → Except ε β} :
    ∀ (l : List α) (acc : List β) (e : ε), List.mapM.loop f l acc = .error e →
      ∃ x ∈ l, f x = .error e := by
  intro l
  induction l with
  | nil => intro acc e h; simp [List.mapM.loop, pure, Except.pure] at h
  | cons a as ih =>
    intro acc e h
    rw [List.mapM.loop, bind_eq_error] at h
    rcases h with h | ⟨b, hb, hrest⟩
    · exact ⟨a, List.mem_cons_self a as, h⟩
    · obtain ⟨x, hx, hfx⟩ := ih _ _ hrest
      exact ⟨x, List.mem_cons_of_mem a hx, hfx⟩

theorem exceptMapM_error {ε α β : Type} {f : α → Except ε β} {l : List α} {e : ε}
    (h : l.mapM f = .error e) : ∃ x ∈ l, f x = .error e :=
  mapM_loop_error l [] e h

theorem jgetField_missing_inv {j : JValue} {key k : List Char}
    (h : jgetField j key = .error (.MissingField k)) : k = key := by
  cases j with
  | str s => simp [jgetField] at h
  | num n => simp [jgetField] at h
  | arr items => simp [jgetField] at h
  | obj fields =>
    simp only [jgetField] at h
    split at h
    · simp at h
    · simp at h
      exact h.symm

theorem jstr_missing_elim {x : JValue} {k : List Char}
    (h : jstr x = .error (.MissingField k)) : False := by
  cases x <;> simp [jstr] at h

theorem jint_missing_elim {x : JValue} {k : List Char}
    (h : jint x = .error (.MissingField k)) : False := by
  cases x <;> simp [jint] at h

theorem jarr_missing_elim {x : JValue} {k : List Char}
    (h : jarr x = .error (.MissingField k)) : False := by
  cases x <;> simp [jarr] at h

theorem jarr_ok_inv {x : JValue} {l : List JValue} (h : jarr x = .ok l) :
    x = .arr l := by
  cases x with
  | str s => simp [jarr] at h
  | num n => simp [jarr] at h
  | arr items => simp [jarr] at h; rw [h]
  | obj fields => simp [jarr] at h

theorem buildLTMatch_ok_required (jm : JValue) (m : LTMatch) (hm : buildLTMatch jm = .ok m) :
    RequiredKeysPresent jm := by
  simp only [buildLTMatch, bind_eq_ok, pure, Except.pure] at hm
  obtain ⟨jrule, hjrule, jid, hjid, rid, hrid, jdesc, hjdesc, desc, hdesc,
    jissue, hjissue, issue, hissue, jcat, hjcat, jcatid, hjcatid, catId, hcatId,
    jcatname, hjcatname, catName, hcatName, jctx, hjctx, jctxt, hjctxt,
    ctxText, hctxText, jctxo, hjctxo, ctxOff, hctxOff, jctxl, hjctxl,
    ctxLen, hctxLen, joff, hjoff, offv, hoffv, jlen, hjlen, lenv, hlenv,
    jrepsv, hjrepsv, jreps, hjreps, reps, hreps, jmsg, hjmsg, msg, hmsg,
    jsmsg, hjsmsg, smsg, hsmsg, hfin⟩ := hm
  obtain rfl := jarr_ok_inv hjreps
  refine ⟨⟨jrule, hjrule, ⟨jid, hjid⟩, ⟨jdesc, hjdesc⟩, ⟨jissue, hjissue⟩,
      ⟨jcat, hjcat, ⟨jcatid, hjcatid⟩, ⟨jcatname, hjcatname⟩⟩⟩,
    ⟨jctx, hjctx, ⟨jctxt, hjctxt⟩, ⟨jctxo, hjctxo⟩, ⟨jctxl, hjctxl⟩⟩,
    ⟨joff, hjoff⟩, ⟨jlen, hjlen⟩, ⟨jreps, hjrepsv, ?_⟩,
    ⟨jmsg, hjmsg⟩, ⟨jsmsg, hjsmsg⟩⟩
  intro jr hjr
  obtain ⟨y, hy⟩ := exceptMapM_ok hreps jr hjr
  rw [bind_eq_ok] at hy
  obtain ⟨v, hv, -⟩ := hy
  exact ⟨v, hv⟩

theorem buildLTMatch_missing_sound (jm : JValue) (k : List Char)
    (hm : buildLTMatch jm = .error (.MissingField k)) : MissingAt jm k := by
  simp only [buildLTMatch, bind_eq_error, pure, Except.pure] at hm
  rcases hm with h | ⟨jrule, hjrule, hm⟩
  · obtain rfl := jgetField_missing_inv h
    exact Or.inl h
  rcases hm with h | ⟨jid, hjid, hm⟩
  · obtain rfl := jgetField_missing_inv h
    exact Or.inr (Or.inl ⟨jrule, hjrule, h⟩)
  rcases hm with h | ⟨rid, hrid, hm⟩
  · exact (jstr_missing_elim h).elim
  rcases hm with h | ⟨jdesc, hjdesc, hm⟩
  · obtain rfl := jgetField_missing_inv h
    exact Or.inr (Or.inl ⟨jrule, hjrule, h⟩)
  rcases hm with h | ⟨desc, hdesc, hm⟩
  · exact (jstr_missing_elim h).elim
  rcases hm with h | ⟨jissue, hjissue, hm⟩
  · obtain rfl := jgetField_missing_inv h
    exact Or.inr (Or.inl ⟨jrule, hjrule, h⟩)
  rcases hm with h | ⟨issue, hissue, hm⟩
  · exact (jstr_missing_elim h).elim
  rcases hm with h | ⟨jcat, hjcat, hm⟩
  · obtain rfl := jgetField_missing_inv h
    exact Or.inr (Or.inl ⟨jrule, hjrule, h⟩)
  rcases hm with h | ⟨jcatid, hjcatid, hm⟩
  · obtain rfl := jgetField_missing_inv h
    exact Or.inr (Or.inr (Or.inl ⟨jrule, jcat, hjrule, hjcat, h⟩))
  rcases hm with h | ⟨catId, hcatId, hm⟩
  · exact (jstr_missing_elim h).elim
  rcases hm with h | ⟨jcatname, hjcatname, hm⟩
  · obtain rfl := jgetField_missing_inv h
    exact Or.inr (Or.inr (Or.inl ⟨jrule, jcat, hjrule, hjcat, h⟩))
  rcases hm with h | ⟨catName, hcatName, hm⟩
  · exact (jstr_missing_elim h).elim
  rcases hm with h | ⟨jctx, hjctx, hm⟩
  · obtain rfl := jgetField_missing_inv h
    exact Or.inl h
  rcases hm with h | ⟨jctxt, hjctxt, hm⟩
  · obtain rfl := jgetField_missing_inv h
    exact Or.inr (Or.inr (Or.inr (Or.inl ⟨jctx, hjctx, h⟩)))
  rcases hm with h | ⟨ctxText, hctxText, hm⟩
  · exact (jstr_missing_elim h).elim
  rcases hm with h | ⟨jctxo, hjctxo, hm⟩
  · obtain rfl := jgetField_missing_inv h
    exact Or.inr (Or.inr (Or.inr (Or.inl ⟨jctx, hjctx, h⟩)))
  rcases hm with h | ⟨ctxOff, hctxOff, hm⟩
  · exact (jint_missing_elim h).elim
  rcases hm with h | ⟨jctxl, hjctxl, hm⟩
  · obtain rfl := jgetField_missing_inv h
    exact Or.inr (Or.inr (Or.inr (Or.inl ⟨jctx, hjctx, h⟩)))
  rcases hm with h | ⟨ctxLen, hctxLen, hm⟩
  · exact (jint_missing_elim h).elim
  rcases hm with h | ⟨joff, hjoff, hm⟩
  · obtain rfl := jgetField_missing_inv h
    exact Or.inl h
  rcases hm with h | ⟨offv, hoffv, hm⟩
  · exact (jint_missing_elim h).elim
  rcases hm with h | ⟨jlen, hjlen, hm⟩
  · obtain rfl := jgetField_missing_inv h
    exact Or.inl h
  rcases hm with h | ⟨lenv, hlenv, hm⟩
  · exact (jint_missing_elim h).elim
  rcases hm with h | ⟨jrepsv, hjrepsv, hm⟩
  · obtain rfl := jgetField_missing_inv h
    exact Or.inl h
  rcases hm with h | ⟨jreps, hjreps, hm⟩
  · exact (jarr_missing_elim h).elim
  rcases hm with h | ⟨reps, hreps, hm⟩
  · obtain ⟨jr, hjrmem, hjr⟩ := exceptMapM_error h
    rw [bind_eq_error] at hjr
    rcases hjr with hjr | ⟨v, hv, hjr⟩
    · obtain rfl := jgetField_missing_inv hjr
      obtain rfl := jarr_ok_inv hjreps
      exact Or.inr (Or.inr (Or.inr (Or.inr ⟨jreps, jr, hjrepsv, hjrmem, hjr⟩)))
    · exact (jstr_missing_elim hjr).elim
  rcases hm with h | ⟨jmsg, hjmsg, hm⟩
  · obtain rfl := jgetField_missing_inv h
    exact Or.inl h
  rcases hm with h | ⟨msg, hmsg, hm⟩
  · exact (jstr_missing_elim h).elim
  rcases hm with h | ⟨jsmsg, hjsmsg, hm⟩
  · obtain rfl := jgetField_missing_inv h
    exact Or.inl h
  rcases hm with h | ⟨smsg, hsmsg, hm⟩
  · exact (jstr_missing_elim h).elim
  exact Except.noConfusion hm

theorem check_text_matches_ok_forall (jresp : JValue) (ms : List LTMatch)
    (h : check_text_matches jresp = .ok ms) :
    ∃ items, jgetField jresp MATCHES_KEY = .ok (.arr items) ∧
      ∀ jm ∈ items, ∃ m, buildLTMatch jm = .ok m := by
  simp only [check_text_matches, bind_eq_ok] at h
  obtain ⟨jv, hjv, items, hitems, hmap⟩ := h
  obtain rfl := jarr_ok_inv hitems
  exact ⟨items, hjv, fun jm hjm => exceptMapM_ok hmap jm hjm⟩

/-- C9, confirmed, in full generality over response objects and over which
required key is absent: (1) every response match object from which a match
is successfully constructed carries every required key at its lookup site,
so an object lacking any required key makes the construction fail; (2)
whenever the construction fails with `MissingField k`, the named key `k`
is genuinely absent from the object in which `check_text` looked it up;
(3) the whole `check_text` response processing succeeds only when every
match object in the response builds, so a failure propagates to the caller
with no default substituted; and (4) concretely, an object carrying every
required key except `message` — whatever the values of its other fields —
fails with `MissingField "message"`, which propagates unchanged. -/
theorem c9_missing_required_field :
    (∀ jm m, buildLTMatch jm = .ok m → RequiredKeysPresent jm) ∧
    (∀ jm k, buildLTMatch jm = .error (.MissingField k) → MissingAt jm k) ∧
    (∀ jresp ms, check_text_matches jresp = .ok ms →
      ∃ items, jgetField jresp MATCHES_KEY = .ok (.arr items) ∧
        ∀ jm ∈ items, ∃ m, buildLTMatch jm = .ok m) ∧
    (∀ (rid desc issue catId catName ctxText : List Char)
      (ctxOff ctxLen off len : Int) (smsg : List Char),
      buildLTMatch (matchObjNoMessage rid desc issue catId catName ctxText
          ctxOff ctxLen off len smsg) = .error (.MissingField MESSAGE_KEY) ∧
      check_text_matches (.obj [(MATCHES_KEY, .arr [matchObjNoMessage rid desc
          issue catId catName ctxText ctxOff ctxLen off len smsg])]) =
        .error (.MissingField MESSAGE_KEY)) :=
  ⟨buildLTMatch_ok_required, buildLTMatch_missing_sound, check_text_matches_ok_forall,
    fun _ _ _ _ _ _ _ _ _ _ _ => ⟨rfl, rfl⟩⟩

/-- Witness for C9: its universally quantified parts applied at concrete
response objects — a fully well-formed one and one missing `message`. -/
theorem c9_missing_required_field_witness :
    (buildLTMatch exampleMatchObj = .ok exampleMatch ∧
      RequiredKeysPresent exampleMatchObj) ∧
    (buildLTMatch (matchObjNoMessage "TYPOS".data "Possible typo".data
        "misspelling".data "TYPOS".data "Possible Typo".data "text".data
        2 4 10 4 "Spelling mistake".data) = .error (.MissingField MESSAGE_KEY) ∧
      MissingAt (matchObjNoMessage "TYPOS".data "Possible typo".data
        "misspelling".data "TYPOS".data "Possible Typo".data "text".data
        2 4 10 4 "Spelling mistake".data) MESSAGE_KEY) ∧
    (check_text_matches (.obj [(MATCHES_KEY, .arr [exampleMatchObj])]) =
        .ok [exampleMatch] ∧
      ∃ items, jgetField (.obj [(MATCHES_KEY, .arr [exampleMatchObj])])
          MATCHES_KEY = .ok (.arr items) ∧
        ∀ jm ∈ items, ∃ m, buildLTMatch jm = .ok m) :=
  ⟨⟨rfl, c9_missing_required_field.1 exampleMatchObj exampleMatch rfl⟩,
    ⟨rfl, c9_missing_required_field.2.1 (matchObjNoMessage "TYPOS".data
      "Possible typo".data "misspelling".data "TYPOS".data "Possible Typo".data
      "text".data 2 4 10 4 "Spelling mistake".data) MESSAGE_KEY rfl⟩,
    ⟨rfl, c9_missing_required_field.2.2.1 (.obj [(MATCHES_KEY,
      .arr [exampleMatchObj])]) [exampleMatch] rfl⟩⟩

/-- C10, corrected: the context field is not optional.  A response match
object carrying every other required key but no `context` key makes
`check_text` fail with `MissingField "context"` instead of constructing
the match. -/
theorem c10_counterexample :
    buildLTMatch matchObjNoContext = .error (.MissingField CONTEXT_KEY) ∧
    (∃ v, jgetField matchObjNoContext RULE_KEY = .ok v) ∧
    (∃ v, jgetField matchObjNoContext OFFSET_KEY = .ok v) ∧
    (∃ v, jgetField matchObjNoContext LENGTH_KEY = .ok v) ∧
    (∃ v, jgetField matchObjNoContext REPLACEMENTS_KEY = .ok v) ∧
    (∃ v, jgetField matchObjNoContext MESSAGE_KEY = .ok v) ∧
    (∃ v, jgetField matchObjNoContext SHORT_MESSAGE_KEY = .ok v) :=
  ⟨rfl, ⟨_, rfl⟩, ⟨_, rfl⟩, ⟨_, rfl⟩, ⟨_, rfl⟩, ⟨_, rfl⟩, ⟨_, rfl⟩⟩

/-- C10, amended: the `context` key is required: every match that
`check_text` successfully builds comes from a response object containing
the `context` key. -/
theorem c10_context_required (jm : JValue) (m : LTMatch)
    (hm : buildLTMatch jm = .ok m) :
    ∃ ctx, jgetField jm CONTEXT_KEY = .ok ctx := by
  simp only [buildLTMatch, bind_eq_ok, pure, Except.pure] at hm
  obtain ⟨jrule, _, jid, _, rid, _, jdesc, _, desc, _, jissue, _, issue, _,
    jcat, _, jcatid, _, catId, _, jcatname, _, catName, _, jctx, hjctx, -⟩ := hm
  exact ⟨jctx, hjctx⟩

/-- Witness for the amended C10 at a concrete well-formed response object. -/
theorem c10_context_required_witness :
    buildLTMatch exampleMatchObj = .ok exampleMatch ∧
    ∃ ctx, jgetField exampleMatchObj CONTEXT_KEY = .ok ctx :=
  ⟨rfl, c10_context_required exampleMatchObj exampleMatch rfl⟩

end LanguageTool
